import Mathlib

set_option maxHeartbeats 1000000

/-
Verification development for the gcsurl library (gcsurl.go).

The Go source is shallowly embedded: strings are Lean `String`s (character
lists), the process environment is a function `String → String` (Go
`os.Getenv` returns "" for unset variables), the file system is a function
`String → Option String` (Go `os.ReadFile`, `none` meaning a read error),
JSON decoding of service-account material is a parameter
`String → Option ServiceAccount` (an external collaborator in the source),
the random source is passed in as the list of bytes Go `crypto/rand.Read`
would produce, and the external URL-signing primitive
(`storage.SignedURL`) is a parameter `SignRequest → Except String String`;
each upload operation additionally returns the list of signing requests it
issued, so that "no signing attempt was made" is a statement about the
returned trace.  Durations are `Int` nanoseconds as in Go `time.Duration`.
-/

namespace Gcsurl

/-- Go `strings.Split` with a one-character separator, on character lists.
Splits at every occurrence of the separator, keeping empty fields. -/
def splitChar (sep : Char) : List Char → List (List Char)
  | [] => [[]]
  | c :: rest =>
    match splitChar sep rest with
    | [] => [[]]
    | s :: ss => if c == sep then [] :: s :: ss else (c :: s) :: ss

/-- The component-processing loop of Go `path/filepath.Clean` (unix):
empty and `.` components are dropped, `..` pops a normal component off the
stack, is dropped at the root, and is kept at the start of a relative
path; everything else is pushed.  The stack is kept reversed; the final
component list is returned in order. -/
def processComponents (rooted : Bool) : List (List Char) → List (List Char) → List (List Char)
  | stack, [] => stack.reverse
  | stack, c :: cs =>
    if c = [] ∨ c = ['.'] then processComponents rooted stack cs
    else if c = ['.', '.'] then
      match stack with
      | [] =>
        if rooted then processComponents rooted [] cs
        else processComponents rooted [['.', '.']] cs
      | top :: rest =>
        if top = ['.', '.'] then processComponents rooted (c :: top :: rest) cs
        else processComponents rooted rest cs
    else processComponents rooted (c :: stack) cs

/-- Join cleaned components with single slashes. -/
def joinComponents : List (List Char) → List Char
  | [] => []
  | [c] => c
  | c :: cs => c ++ '/' :: joinComponents cs

/-- Go `path/filepath.Clean` on unix, via its component semantics:
apply the simplification rules repeatedly; the empty path cleans to `"."`,
a rooted path keeps its leading slash, and an emptied relative path
becomes `"."`. -/
def goClean (s : String) : String :=
  if s.data = [] then "."
  else
    let rooted := s.data.head? = some '/'
    let body := joinComponents (processComponents rooted [] (splitChar '/' s.data))
    if rooted then ⟨'/' :: body⟩
    else if body = [] then "." else ⟨body⟩

/-- The backwards scan of Go `path/filepath.Ext`: walk from the end of the
path (the reversed character list), stop at a path separator, and return
from the final dot onward.  `acc` holds the characters already passed, in
forward order. -/
def goExtCore : List Char → List Char → List Char
  | [], _ => []
  | c :: rest, acc =>
    if c == '/' then []
    else if c == '.' then '.' :: acc
    else goExtCore rest (c :: acc)

/-- Go `path/filepath.Ext`: the suffix beginning at the final dot in the
final slash-separated element of the path; empty if there is no dot. -/
def goExt (s : String) : String := ⟨goExtCore s.data.reverse []⟩

/-- Go `path/filepath.Base`: strip trailing separators, then take
everything after the final separator; `"."` for the empty path, `"/"` for
an all-separator path. -/
def goBase (s : String) : String :=
  if s.data = [] then "."
  else
    let r := s.data.reverse.dropWhile (fun c => c == '/')
    let seg := (r.takeWhile (fun c => c != '/')).reverse
    if seg = [] then "/" else ⟨seg⟩

/-- Everything up to and including the final separator (empty if there is
no separator): the slice Go `path/filepath.Dir` hands to `Clean`. -/
def dropLastSegment (cs : List Char) : List Char :=
  (cs.reverse.dropWhile (fun c => c != '/')).reverse

/-- Go `path/filepath.Dir` on unix: `Clean` of everything up to and
including the final separator. -/
def goDir (s : String) : String := goClean ⟨dropLastSegment s.data⟩

/-- Go `strings.TrimSuffix`. -/
def goTrimSuffix (s suf : String) : String :=
  if suf.data.isSuffixOf s.data then ⟨s.data.take (s.data.length - suf.data.length)⟩ else s

/-- Go `path/filepath.Join` on two elements: `Clean` of the
slash-concatenation, skipping leading empty elements; `""` if both are
empty. -/
def goJoin2 (a b : String) : String :=
  if a.data = [] then (if b.data = [] then "" else goClean b)
  else goClean ⟨a.data ++ '/' :: b.data⟩

/-- One lowercase hexadecimal digit, as produced by Go `fmt` verb `%x`. -/
def hexDigit (n : Nat) : Char :=
  if n % 16 < 10 then Char.ofNat (48 + n % 16) else Char.ofNat (87 + n % 16)

/-- Go `fmt.Sprintf("%x", ...)` rendering of one byte: two lowercase hex
digits, high nibble first. -/
def byteHex (b : Nat) : List Char := [hexDigit (b / 16), hexDigit b]

/-- `generateShortUUID` from gcsurl.go with the bytes drawn by
`crypto/rand.Read` passed in: the lowercase hex rendering of the bytes
(8 characters for the 4 bytes the source draws). -/
def generateShortUUID (bytes : List Nat) : String := ⟨(bytes.map byteHex).flatten⟩

/-- `generateUniqueObjectName` from gcsurl.go, with the random bytes
passed in: split the path into directory and filename, split the filename
into stem and extension, and rebuild as `dir/{hex}_{stem}{ext}`,
dropping the directory when it is `"."`. -/
def generateUniqueObjectName (bytes : List Nat) (originalPath : String) : String :=
  let uuid := generateShortUUID bytes
  let dir := goDir originalPath
  let filename := goBase originalPath
  let ext := goExt filename
  let nameWithoutExt := goTrimSuffix filename ext
  let uniqueFilename := uuid ++ "_" ++ nameWithoutExt ++ ext
  if dir = "." then uniqueFilename
  else goJoin2 dir uniqueFilename

/-- ASCII case folding, the restriction of Go `strings.ToLower` to the
characters this library compares. -/
def charToLower (c : Char) : Char :=
  if 65 ≤ c.toNat ∧ c.toNat ≤ 90 then Char.ofNat (c.toNat + 32) else c

/-- Go `strings.ToLower` (ASCII fragment). -/
def goToLower (s : String) : String := ⟨s.data.map charToLower⟩

/-- Go `strings.TrimSpace` (ASCII whitespace fragment). -/
def isSpaceChar (c : Char) : Bool :=
  c == ' ' || c == '\t' || c == '\n' || c == '\u000b' || c == '\u000c' || c == '\r'

/-- Go `strings.TrimSpace`: drop leading and trailing whitespace. -/
def goTrimSpace (cs : List Char) : List Char :=
  ((cs.dropWhile isSpaceChar).reverse.dropWhile isSpaceChar).reverse

/-- Decimal digit accumulation for Go `strconv`. -/
def parseDigitsAux : List Char → Nat → Option Nat
  | [], acc => some acc
  | c :: cs, acc =>
    if '0' ≤ c ∧ c ≤ '9' then parseDigitsAux cs (acc * 10 + (c.toNat - 48)) else none

/-- Sign-stripped body of Go `strconv.ParseInt(s, 10, 64)`: all characters
must be decimal digits, at least one, and the value must fit in int64. -/
def parseIntCore (neg : Bool) (cs : List Char) : Option Int :=
  if cs = [] then none
  else
    match parseDigitsAux cs 0 with
    | none => none
    | some n =>
      if neg then
        if n ≤ 9223372036854775808 then some (-(n : Int)) else none
      else
        if n ≤ 9223372036854775807 then some (n : Int) else none

/-- Go `strconv.ParseInt(s, 10, 64)` (also `strconv.Atoi` on 64-bit):
optional single leading sign, then decimal digits; `none` models a
non-nil error. -/
def parseInt64 (s : String) : Option Int :=
  match s.data with
  | '+' :: rest => parseIntCore false rest
  | '-' :: rest => parseIntCore true rest
  | cs => parseIntCore false cs

/-- `ServiceAccount` from gcsurl.go: the two fields extracted from
service-account JSON. -/
structure ServiceAccount where
  ClientEmail : String
  PrivateKey : String
deriving DecidableEq, Repr

/-- `UploadRestrictions` from gcsurl.go. -/
structure UploadRestrictions where
  AllowMultiple : Bool
  AllowedExtensions : List String
  MaxFileSizeMB : Int
  MaxFileSizeBytes : Int
deriving DecidableEq, Repr

/-- `Config` from gcsurl.go. -/
structure Config where
  ProjectID : String
  BucketName : String
  ServiceAccountKeyPath : String
  DefaultExpiryMinutes : Int
  UploadRestrictions : Option UploadRestrictions
deriving DecidableEq, Repr

/-- `URLGenerator` from gcsurl.go; `serviceAccountJSON` keeps the raw
bytes as a string, `defaultExpiry` is `Int` nanoseconds. -/
structure URLGenerator where
  serviceAccountKeyPath : String
  svcAccount : Option ServiceAccount
  serviceAccountJSON : String
  projectID : String
  bucketName : String
  defaultExpiry : Int
  uploadRestrictions : UploadRestrictions
deriving DecidableEq, Repr

/-- `DocumentUpload` from gcsurl.go; `ExpiresAt` is `Int` nanoseconds
since the epoch. -/
structure DocumentUpload where
  UploadURL : String
  ExpiresAt : Int
  GeneratedKey : String
  OriginalName : String
deriving DecidableEq, Repr

/-- One nanosecond count of Go `time.Minute`. -/
def minuteNs : Int := 60000000000

/-- The default restriction value both constructors start from. -/
def defaultRestrictions : UploadRestrictions :=
  { AllowMultiple := true, AllowedExtensions := [], MaxFileSizeMB := 0, MaxFileSizeBytes := 0 }

/-- The expiry-resolution step shared by both constructors: a positive
parse of the environment variable overrides the 15-minute default. -/
def expiryFromEnvVal (v : String) : Int :=
  match parseInt64 v with
  | some m => if m > 0 then m * minuteNs else 15 * minuteNs
  | none => 15 * minuteNs

/-- `NewURLGeneratorWithRestrictions` from gcsurl.go.  `env` is
`os.Getenv`, `fs` is `os.ReadFile`, `parse` is `json.Unmarshal` into a
`ServiceAccount`. -/
def NewURLGeneratorWithRestrictions (env : String → String) (fs : String → Option String)
    (parse : String → Option ServiceAccount) (restrictions : Option UploadRestrictions) :
    Except String URLGenerator :=
  let bucketName := env "GCS_BUCKET_NAME"
  if bucketName = "" then
    .error "GCS_BUCKET_NAME environment variable is required when using NewURLGenerator or NewURLGeneratorWithRestrictions. Use NewURLGeneratorWithBucket or NewURLGeneratorWithConfig to specify bucket explicitly"
  else
    let projectID := env "GCP_PROJECT_ID"
    let defaultExpiry := expiryFromEnvVal (env "GCS_DEFAULT_EXPIRY_MINUTES")
    let uploadRestrictions := restrictions.getD defaultRestrictions
    if env "GCS_SERVICE_ACCOUNT_JSON" ≠ "" then
      match parse (env "GCS_SERVICE_ACCOUNT_JSON") with
      | none => .error "failed to parse GCS_SERVICE_ACCOUNT_JSON"
      | some sa =>
        .ok ⟨"", some sa, env "GCS_SERVICE_ACCOUNT_JSON", projectID, bucketName,
             defaultExpiry, uploadRestrictions⟩
    else if env "GOOGLE_APPLICATION_CREDENTIALS" ≠ "" then
      match fs (env "GOOGLE_APPLICATION_CREDENTIALS") with
      | none => .error ("failed to read service account file " ++ env "GOOGLE_APPLICATION_CREDENTIALS")
      | some fileData =>
        match parse fileData with
        | none => .error ("failed to parse service account file " ++ env "GOOGLE_APPLICATION_CREDENTIALS")
        | some sa =>
          .ok ⟨env "GOOGLE_APPLICATION_CREDENTIALS", some sa, fileData, projectID, bucketName,
               defaultExpiry, uploadRestrictions⟩
    else
      .ok ⟨"", none, "", projectID, bucketName, defaultExpiry, uploadRestrictions⟩

/-- `NewURLGenerator` from gcsurl.go. -/
def NewURLGenerator (env : String → String) (fs : String → Option String)
    (parse : String → Option ServiceAccount) : Except String URLGenerator :=
  NewURLGeneratorWithRestrictions env fs parse none

/-- `NewURLGeneratorWithConfig` from gcsurl.go: bucket from the config
field, falling back to the environment; expiry from a positive config
minute count, falling back to the environment; credentials from the
JSON environment variable, falling back to the config file path. -/
def NewURLGeneratorWithConfig (env : String → String) (fs : String → Option String)
    (parse : String → Option ServiceAccount) (config : Config) :
    Except String URLGenerator :=
  let bucketName := if config.BucketName ≠ "" then config.BucketName else env "GCS_BUCKET_NAME"
  if bucketName = "" then
    .error "bucket name is required. Provide via Config.BucketName or GCS_BUCKET_NAME environment variable"
  else
    let defaultExpiry :=
      if config.DefaultExpiryMinutes > 0 then config.DefaultExpiryMinutes * minuteNs
      else expiryFromEnvVal (env "GCS_DEFAULT_EXPIRY_MINUTES")
    let uploadRestrictions := config.UploadRestrictions.getD defaultRestrictions
    if env "GCS_SERVICE_ACCOUNT_JSON" ≠ "" then
      match parse (env "GCS_SERVICE_ACCOUNT_JSON") with
      | none => .error "failed to parse GCS_SERVICE_ACCOUNT_JSON"
      | some sa =>
        .ok ⟨config.ServiceAccountKeyPath, some sa, env "GCS_SERVICE_ACCOUNT_JSON",
             config.ProjectID, bucketName, defaultExpiry, uploadRestrictions⟩
    else if config.ServiceAccountKeyPath ≠ "" then
      match fs config.ServiceAccountKeyPath with
      | none => .error ("failed to read service account file " ++ config.ServiceAccountKeyPath)
      | some fileData =>
        match parse fileData with
        | none => .error ("failed to parse service account file " ++ config.ServiceAccountKeyPath)
        | some sa =>
          .ok ⟨config.ServiceAccountKeyPath, some sa, fileData, config.ProjectID, bucketName,
               defaultExpiry, uploadRestrictions⟩
    else
      .ok ⟨config.ServiceAccountKeyPath, none, "", config.ProjectID, bucketName,
           defaultExpiry, uploadRestrictions⟩

/-- `NewURLGeneratorWithBucket` from gcsurl.go. -/
def NewURLGeneratorWithBucket (env : String → String) (fs : String → Option String)
    (parse : String → Option ServiceAccount) (bucketName : String) :
    Except String URLGenerator :=
  if bucketName = "" then .error "bucket name cannot be empty"
  else NewURLGeneratorWithConfig env fs parse
    ⟨"", bucketName, "", 0, none⟩

/-- `NewURLGeneratorWithBucketAndRestrictions` from gcsurl.go. -/
def NewURLGeneratorWithBucketAndRestrictions (env : String → String)
    (fs : String → Option String) (parse : String → Option ServiceAccount)
    (bucketName : String) (restrictions : Option UploadRestrictions) :
    Except String URLGenerator :=
  if bucketName = "" then .error "bucket name cannot be empty"
  else NewURLGeneratorWithConfig env fs parse
    ⟨"", bucketName, "", 0, restrictions⟩

/-- One entry of the extension-list normalisation in
`NewUploadRestrictionsFromEnv`: trim spaces, ensure the leading dot,
lowercase. -/
def normalizeExtEntry (e : List Char) : String :=
  let t := goTrimSpace e
  let t := if t.head? = some '.' then t else '.' :: t
  ⟨t.map charToLower⟩

/-- `NewUploadRestrictionsFromEnv` from gcsurl.go: read the three
variables, then return the policy only if at least one restriction was
actually configured away from its default, else `none`. -/
def NewUploadRestrictionsFromEnv (env : String → String) : Option UploadRestrictions :=
  let allowMultiple :=
    if env "GCS_ALLOW_MULTIPLE_UPLOADS" ≠ "" then
      goToLower (env "GCS_ALLOW_MULTIPLE_UPLOADS") = "true"
    else true
  let allowedExtensions :=
    if env "GCS_ALLOWED_FILE_EXTENSIONS" ≠ "" then
      (splitChar ',' (env "GCS_ALLOWED_FILE_EXTENSIONS").data).map normalizeExtEntry
    else []
  let sizes : Int × Int :=
    if env "GCS_MAX_FILE_SIZE_MB" ≠ "" then
      match parseInt64 (env "GCS_MAX_FILE_SIZE_MB") with
      | some n => if n > 0 then (n, n * 1024 * 1024) else (0, 0)
      | none => (0, 0)
    else (0, 0)
  if ¬allowMultiple ∨ allowedExtensions ≠ [] ∨ sizes.1 > 0 then
    some ⟨allowMultiple, allowedExtensions, sizes.1, sizes.2⟩
  else none

/-- Go `fmt` `%v` rendering of a string slice: entries joined by single
spaces inside square brackets. -/
def joinSpace : List String → String
  | [] => ""
  | [s] => s
  | s :: ss => s ++ " " ++ joinSpace ss

/-- `ValidateUpload` from gcsurl.go: when an allow-list is configured,
the lowercased extension of the filename must equal one of its entries;
`some msg` models a non-nil error. -/
def ValidateUpload (u : URLGenerator) (filename : String) : Option String :=
  if u.uploadRestrictions.AllowedExtensions.length > 0 then
    let ext := goToLower (goExt filename)
    if u.uploadRestrictions.AllowedExtensions.any (fun allowedExt => ext = allowedExt) then none
    else some ("file extension " ++ ext ++ " not allowed. Allowed extensions: [" ++
               joinSpace u.uploadRestrictions.AllowedExtensions ++ "]")
  else none

/-- `getContentTypeFromExtension` from gcsurl.go: the fixed
extension-to-MIME table, defaulting to the generic binary stream type. -/
def contentTypes : List (String × String) :=
  [(".pdf", "application/pdf"),
   (".jpg", "image/jpeg"),
   (".jpeg", "image/jpeg"),
   (".png", "image/png"),
   (".gif", "image/gif"),
   (".webp", "image/webp"),
   (".mp3", "audio/mpeg"),
   (".mp4", "video/mp4"),
   (".avi", "video/x-msvideo"),
   (".txt", "text/plain"),
   (".csv", "text/csv"),
   (".json", "application/json"),
   (".xml", "application/xml"),
   (".zip", "application/zip"),
   (".doc", "application/msword"),
   (".docx", "application/vnd.openxmlformats-officedocument.wordprocessingml.document"),
   (".xls", "application/vnd.ms-excel"),
   (".xlsx", "application/vnd.openxmlformats-officedocument.spreadsheetml.sheet")]

/-- `getContentTypeFromExtension` from gcsurl.go. -/
def getContentTypeFromExtension (ext : String) : String :=
  match contentTypes.lookup ext with
  | some contentType => contentType
  | none => "application/octet-stream"

/-- `hasRestrictions` from gcsurl.go. -/
def hasRestrictions (u : URLGenerator) : Bool :=
  u.uploadRestrictions.AllowedExtensions.length > 0 ||
  u.uploadRestrictions.MaxFileSizeMB > 0 ||
  !u.uploadRestrictions.AllowMultiple

/-- `getServiceAccount` from gcsurl.go. -/
def getServiceAccount (u : URLGenerator) : Except String ServiceAccount :=
  match u.svcAccount with
  | some sa => .ok sa
  | none => .error "service account not loaded - configure GCS_SERVICE_ACCOUNT_JSON or GOOGLE_APPLICATION_CREDENTIALS"

/-- One request handed to the external `storage.SignedURL` primitive. -/
structure SignRequest where
  bucket : String
  object : String
  method : String
  expiresAt : Int
  contentType : String
  headers : List String
  accessID : String
  privateKey : String
deriving DecidableEq, Repr

/-- `GenerateSignedUploadURLWithExpiry` from gcsurl.go: sign a plain PUT
with generic content type for the exact object name given, deriving no
unique name and applying no restriction.  `sign` is the external signer,
`now` the current time; the second component is the list of signing
requests issued. -/
def GenerateSignedUploadURLWithExpiry (u : URLGenerator)
    (sign : SignRequest → Except String String) (now : Int)
    (bucketName objectName : String) (expiry : Int) :
    Except String DocumentUpload × List SignRequest :=
  match getServiceAccount u with
  | .error e => (.error e, [])
  | .ok sa =>
    let expires := now + expiry
    let req : SignRequest :=
      ⟨bucketName, objectName, "PUT", expires, "application/octet-stream", [],
       sa.ClientEmail, sa.PrivateKey⟩
    match sign req with
    | .error e => (.error ("failed to generate signed upload URL: " ++ e), [req])
    | .ok url => (.ok ⟨url, expires, objectName, objectName⟩, [req])

/-- `generateUploadURLWithRestrictions` from gcsurl.go: sign a PUT whose
content type is resolved from the object name's extension and which
carries a `Content-Length` header when a size cap is set. -/
def generateUploadURLWithRestrictions (u : URLGenerator)
    (sign : SignRequest → Except String String) (now : Int)
    (bucketName objectName : String) (expiry : Int) :
    Except String DocumentUpload × List SignRequest :=
  match getServiceAccount u with
  | .error e => (.error e, [])
  | .ok sa =>
    let expires := now + expiry
    let headers :=
      if u.uploadRestrictions.MaxFileSizeBytes > 0 then
        ["Content-Length:" ++ toString u.uploadRestrictions.MaxFileSizeBytes]
      else []
    let ext := goToLower (goExt objectName)
    let contentType :=
      if ext ≠ "" then getContentTypeFromExtension ext else "application/octet-stream"
    let req : SignRequest :=
      ⟨bucketName, objectName, "PUT", expires, contentType, headers,
       sa.ClientEmail, sa.PrivateKey⟩
    match sign req with
    | .error e => (.error ("failed to generate validated upload URL: " ++ e), [req])
    | .ok url => (.ok ⟨url, expires, "", ""⟩, [req])

/-- `GenerateSignedUploadURL` from gcsurl.go: derive the unique key,
validate the original name when restrictions are active, then sign
against the default bucket with the default expiry.  The random bytes of
the key derivation are passed in. -/
def GenerateSignedUploadURL (u : URLGenerator)
    (sign : SignRequest → Except String String) (bytes : List Nat) (now : Int)
    (objectName : String) : Except String DocumentUpload × List SignRequest :=
  let uniqueObjectName := generateUniqueObjectName bytes objectName
  if hasRestrictions u then
    match ValidateUpload u objectName with
    | some e => (.error e, [])
    | none =>
      match generateUploadURLWithRestrictions u sign now u.bucketName uniqueObjectName u.defaultExpiry with
      | (.error e, t) => (.error e, t)
      | (.ok up, t) =>
        (.ok { up with GeneratedKey := uniqueObjectName, OriginalName := objectName }, t)
  else
    match GenerateSignedUploadURLWithExpiry u sign now u.bucketName uniqueObjectName u.defaultExpiry with
    | (.error e, t) => (.error e, t)
    | (.ok up, t) =>
      (.ok { up with GeneratedKey := uniqueObjectName, OriginalName := objectName }, t)

/-- `GenerateSignedUploadURLWithBucket` from gcsurl.go: as the default
upload operation, but against the bucket given. -/
def GenerateSignedUploadURLWithBucket (u : URLGenerator)
    (sign : SignRequest → Except String String) (bytes : List Nat) (now : Int)
    (bucketName objectName : String) : Except String DocumentUpload × List SignRequest :=
  let uniqueObjectName := generateUniqueObjectName bytes objectName
  if hasRestrictions u then
    match ValidateUpload u objectName with
    | some e => (.error e, [])
    | none =>
      match generateUploadURLWithRestrictions u sign now bucketName uniqueObjectName u.defaultExpiry with
      | (.error e, t) => (.error e, t)
      | (.ok up, t) =>
        (.ok { up with GeneratedKey := uniqueObjectName, OriginalName := objectName }, t)
  else
    match GenerateSignedUploadURLWithExpiry u sign now bucketName uniqueObjectName u.defaultExpiry with
    | (.error e, t) => (.error e, t)
    | (.ok up, t) =>
      (.ok { up with GeneratedKey := uniqueObjectName, OriginalName := objectName }, t)

/-- `GenerateSignedUploadURLWithOriginalName` from gcsurl.go: validate
and apply restrictions, but keep the caller's object name verbatim. -/
def GenerateSignedUploadURLWithOriginalName (u : URLGenerator)
    (sign : SignRequest → Except String String) (now : Int)
    (objectName : String) : Except String DocumentUpload × List SignRequest :=
  if hasRestrictions u then
    match ValidateUpload u objectName with
    | some e => (.error e, [])
    | none =>
      match generateUploadURLWithRestrictions u sign now u.bucketName objectName u.defaultExpiry with
      | (.error e, t) => (.error e, t)
      | (.ok up, t) =>
        (.ok { up with GeneratedKey := objectName, OriginalName := objectName }, t)
  else
    GenerateSignedUploadURLWithExpiry u sign now u.bucketName objectName u.defaultExpiry

/-- Everything strictly before the final separator of a path — the
"prefix up to the final separator" the spec's directory-preservation
property speaks of. -/
def upToFinalSep (s : String) : String :=
  ⟨((s.data.reverse.dropWhile (fun c => c != '/')).reverse).dropLast⟩

/-- The credential-resolution chain exactly as the spec words it
(§4.1): a JSON blob wins and its parse failure is fatal with no
fallthrough; else a given file path is read and parsed, read or parse
failure fatal; else the identity is absent and that is not an error.
This is the spec-side reference the constructors are compared with. -/
def specCredentialChain (parse : String → Option ServiceAccount)
    (fs : String → Option String) (jsonBlob filePath : String) :
    Except String (Option ServiceAccount) :=
  if jsonBlob ≠ "" then
    match parse jsonBlob with
    | none => .error "failed to parse service account JSON"
    | some sa => .ok (some sa)
  else if filePath ≠ "" then
    match fs filePath with
    | none => .error "failed to read service account file"
    | some fileData =>
      match parse fileData with
      | none => .error "failed to parse service account file"
      | some sa => .ok (some sa)
  else .ok none

/-- Agreement of a constructor outcome with the spec-side credential
chain: both fail, or both succeed with the same resolved identity. -/
def credAgrees : Except String URLGenerator → Except String (Option ServiceAccount) → Prop
  | .ok g, .ok ident => g.svcAccount = ident
  | .error _, .error _ => True
  | _, _ => False

/-! Helper lemmas about the character-list operations. -/

theorem data_append (a b : String) : (a ++ b).data = a.data ++ b.data := by
  cases a; cases b; rfl

theorem string_ext_iff (a b : String) : a = b ↔ a.data = b.data := by
  cases a; cases b; exact ⟨fun h => by cases h; rfl, fun h => by cases h; rfl⟩

theorem dropWhile_all_false {p : Char → Bool} {l : List Char}
    (h : ∀ c ∈ l, p c = false) : l.dropWhile p = l := by
  cases l with
  | nil => rfl
  | cons c rest => rw [List.dropWhile_cons_of_neg]; simp [h c (by simp)]

theorem dropWhile_all_true {p : Char → Bool} {l : List Char}
    (h : ∀ c ∈ l, p c = true) : l.dropWhile p = [] := by
  induction l with
  | nil => rfl
  | cons c rest ih =>
    rw [List.dropWhile_cons_of_pos (h c (by simp))]
    exact ih fun x hx => h x (by simp [hx])

theorem takeWhile_all_true {p : Char → Bool} {l : List Char}
    (h : ∀ c ∈ l, p c = true) : l.takeWhile p = l := by
  have h2 := @List.takeWhile_append_of_pos _ p l [] h
  simpa using h2

theorem splitChar_ne_nil (sep : Char) (cs : List Char) : splitChar sep cs ≠ [] := by
  cases cs with
  | nil => simp [splitChar]
  | cons c rest =>
    simp only [splitChar]
    cases h : splitChar sep rest with
    | nil => simp
    | cons s ss =>
      by_cases hc : c == sep <;> simp [hc]

theorem splitChar_append_sep (sep : Char) (a b : List Char) :
    splitChar sep (a ++ sep :: b) = splitChar sep a ++ splitChar sep b := by
  induction a with
  | nil =>
    simp only [List.nil_append, splitChar]
    cases h : splitChar sep b with
    | nil => exact absurd h (splitChar_ne_nil sep b)
    | cons s ss => simp
  | cons c a' ih =>
    simp only [List.cons_append, splitChar, List.append_eq]
    rw [ih]
    cases h : splitChar sep a' with
    | nil => exact absurd h (splitChar_ne_nil sep a')
    | cons s ss =>
      by_cases hc : c == sep <;> simp [hc]

theorem splitChar_no_sep (sep : Char) (cs : List Char) (h : ∀ c ∈ cs, c ≠ sep) :
    splitChar sep cs = [cs] := by
  induction cs with
  | nil => rfl
  | cons c rest ih =>
    simp only [splitChar]
    rw [ih fun x hx => h x (by simp [hx])]
    have : (c == sep) = false := by
      simpa using h c (by simp)
    simp [this]

theorem process_append_nil_comp (r : Bool) (st : List (List Char)) (cs : List (List Char)) :
    processComponents r st (cs ++ [[]]) = processComponents r st cs := by
  induction cs generalizing st with
  | nil => simp [processComponents]
  | cons c cs' ih =>
    simp only [List.cons_append, processComponents]
    by_cases h1 : c = [] ∨ c = ['.']
    · simp only [if_pos h1]; exact ih st
    · simp only [if_neg h1]
      by_cases h2 : c = ['.', '.']
      · simp only [if_pos h2]
        cases st with
        | nil =>
          by_cases hr : r = true
          · subst hr; simp only [if_pos rfl]; exact ih []
          · have : r = false := by simpa using hr
            subst this; simp only [Bool.false_eq_true, if_neg, ite_false]; exact ih _
        | cons top rest =>
          by_cases h3 : top = ['.', '.']
          · simp only [if_pos h3]; exact ih _
          · simp only [if_neg h3]; exact ih rest
      · simp only [if_neg h2]; exact ih _

theorem process_append_normal (r : Bool) (st cs : List (List Char)) (L : List Char)
    (hL1 : L ≠ []) (hL2 : L ≠ ['.']) (hL3 : L ≠ ['.', '.']) :
    processComponents r st (cs ++ [L]) = processComponents r st cs ++ [L] := by
  induction cs generalizing st with
  | nil =>
    simp only [List.nil_append, processComponents]
    have h1 : ¬(L = [] ∨ L = ['.']) := by simp [hL1, hL2]
    simp [h1, hL3, processComponents]
  | cons c cs' ih =>
    simp only [List.cons_append, processComponents]
    by_cases h1 : c = [] ∨ c = ['.']
    · simp only [if_pos h1]; exact ih st
    · simp only [if_neg h1]
      by_cases h2 : c = ['.', '.']
      · simp only [if_pos h2]
        cases st with
        | nil =>
          by_cases hr : r = true
          · subst hr; simp only [if_pos rfl]; exact ih []
          · have : r = false := by simpa using hr
            subst this; simp only [Bool.false_eq_true, if_neg, ite_false]; exact ih _
        | cons top rest =>
          by_cases h3 : top = ['.', '.']
          · simp only [if_pos h3]; exact ih _
          · simp only [if_neg h3]; exact ih rest
      · simp only [if_neg h2]; exact ih _

theorem joinComponents_append_single (cs : List (List Char)) (L : List Char)
    (h : cs ≠ []) : joinComponents (cs ++ [L]) = joinComponents cs ++ '/' :: L := by
  induction cs with
  | nil => exact absurd rfl h
  | cons c cs' ih =>
    cases cs' with
    | nil => simp [joinComponents]
    | cons c2 cs'' =>
      have hne : c2 :: cs'' ≠ [] := by simp
      calc joinComponents ((c :: c2 :: cs'') ++ [L])
          = c ++ '/' :: joinComponents ((c2 :: cs'') ++ [L]) := by
            simp only [List.cons_append, joinComponents]; rfl
        _ = c ++ '/' :: (joinComponents (c2 :: cs'') ++ '/' :: L) := by rw [ih hne]
        _ = joinComponents (c :: c2 :: cs'') ++ '/' :: L := by
            simp [joinComponents]

theorem goExtCore_suffix (rev acc : List Char) :
    goExtCore rev acc = [] ∨ goExtCore rev acc <:+ (rev.reverse ++ acc) := by
  induction rev generalizing acc with
  | nil => left; rfl
  | cons c rest ih =>
    simp only [goExtCore]
    by_cases hc : c == '/'
    · simp [hc]
    · simp only [hc, Bool.false_eq_true, if_false]
      by_cases hd : c == '.'
      · right
        have hcd : c = '.' := by simpa using hd
        subst hcd
        simp only [hd, if_true]
        exact ⟨rest.reverse, by simp⟩
      · simp only [hd, Bool.false_eq_true, if_false]
        rcases ih (c :: acc) with h | ⟨t, ht⟩
        · left; exact h
        · right
          refine ⟨t, ?_⟩
          rw [ht]
          simp

theorem goExt_suffix (s : String) : (goExt s).data <:+ s.data := by
  rcases goExtCore_suffix s.data.reverse [] with h | h
  · simp [goExt, h]
  · simpa [goExt] using h

theorem stem_append_ext (s : String) :
    (goTrimSuffix s (goExt s)).data ++ (goExt s).data = s.data := by
  have hsuf := goExt_suffix s
  obtain ⟨pre, hpre⟩ := hsuf
  have hiso : (goExt s).data.isSuffixOf s.data = true := by
    rw [List.isSuffixOf_iff_suffix]
    exact ⟨pre, hpre⟩
  simp only [goTrimSuffix, hiso, if_true]
  have hlen : s.data.length - (goExt s).data.length = pre.length := by
    rw [← hpre]; simp
  rw [hlen, ← hpre, List.take_left]

theorem hexDigit_range (n : Nat) :
    ('0' ≤ hexDigit n ∧ hexDigit n ≤ '9') ∨ ('a' ≤ hexDigit n ∧ hexDigit n ≤ 'f') := by
  have hm : n % 16 < 16 := Nat.mod_lt _ (by norm_num)
  unfold hexDigit
  set m := n % 16 with hmdef
  clear_value m
  interval_cases m <;> simp

theorem hex_ne_slash (c : Char)
    (h : ('0' ≤ c ∧ c ≤ '9') ∨ ('a' ≤ c ∧ c ≤ 'f')) : c ≠ '/' := by
  rintro rfl
  revert h
  decide

theorem uuid_chars (bytes : List Nat) (c : Char)
    (h : c ∈ (generateShortUUID bytes).data) :
    ('0' ≤ c ∧ c ≤ '9') ∨ ('a' ≤ c ∧ c ≤ 'f') := by
  simp only [generateShortUUID, List.mem_flatten, List.mem_map] at h
  obtain ⟨l, ⟨b, _, hb⟩, hc⟩ := h
  subst hb
  simp only [byteHex, List.mem_cons, List.mem_singleton] at hc
  rcases hc with rfl | rfl | h
  · exact hexDigit_range _
  · exact hexDigit_range _
  · cases h

theorem uuid_length (bytes : List Nat) :
    (generateShortUUID bytes).data.length = 2 * bytes.length := by
  induction bytes with
  | nil => rfl
  | cons b bs ih =>
    simp only [generateShortUUID, List.map_cons, List.flatten_cons, List.length_append] at ih ⊢
    simp only [byteHex, List.length_cons, List.length_nil] at ih ⊢
    omega

theorem data_mk (l : List Char) : (⟨l⟩ : String).data = l := rfl

theorem string_eta (s : String) : (⟨s.data⟩ : String) = s := by cases s; rfl

theorem clean_data_ne_nil (d : String) (hd : goClean d = d) (hdot : d ≠ ".") :
    d.data ≠ [] := by
  intro h0
  have hcl : goClean d = "." := by simp [goClean, h0]
  exact hdot (hd.symm.trans hcl)

theorem clean_trailing_slash (l : List Char) (h : l ≠ []) :
    goClean ⟨l ++ ['/']⟩ = goClean ⟨l⟩ := by
  obtain ⟨c, t, rfl⟩ : ∃ c t, l = c :: t := by
    cases l with
    | nil => exact absurd rfl h
    | cons c t => exact ⟨c, t, rfl⟩
  have hsplit : splitChar '/' ((c :: t) ++ ['/']) = splitChar '/' (c :: t) ++ [[]] := by
    have h2 := splitChar_append_sep '/' (c :: t) []
    simpa [splitChar] using h2
  simp only [goClean, data_mk, hsplit, process_append_nil_comp]
  simp

theorem clean_append_normal (d : String) (L : List Char)
    (hd : goClean d = d) (hdot : d ≠ ".") (hroot : d ≠ "/")
    (hL1 : L ≠ []) (hL2 : L ≠ ['.']) (hL3 : L ≠ ['.', '.'])
    (hLs : ∀ c ∈ L, c ≠ '/') :
    goClean ⟨d.data ++ '/' :: L⟩ = ⟨d.data ++ '/' :: L⟩ := by
  have hne : d.data ≠ [] := clean_data_ne_nil d hd hdot
  have happ_ne : d.data ++ '/' :: L ≠ [] := by simp
  have hsplit : splitChar '/' (d.data ++ '/' :: L) = splitChar '/' d.data ++ [L] := by
    rw [splitChar_append_sep, splitChar_no_sep '/' L hLs]
  have hhead : (d.data ++ '/' :: L).head? = d.data.head? := by
    cases hdd : d.data with
    | nil => exact absurd hdd hne
    | cons c t => simp
  by_cases hr : d.data.head? = some '/'
  · -- rooted path
    have hcl : goClean d = ⟨'/' :: joinComponents (processComponents true [] (splitChar '/' d.data))⟩ := by
      simp [goClean, hne, hr]
    have hdata : d.data = '/' :: joinComponents (processComponents true [] (splitChar '/' d.data)) := by
      have := hd.symm.trans hcl
      rw [string_ext_iff] at this
      simpa using this
    have hCL : processComponents true [] (splitChar '/' d.data) ≠ [] := by
      intro h0
      apply hroot
      rw [string_ext_iff, hdata, h0]
      rfl
    have hproc : processComponents true [] (splitChar '/' d.data ++ [L]) =
        processComponents true [] (splitChar '/' d.data) ++ [L] :=
      process_append_normal true [] _ L hL1 hL2 hL3
    have hjoin : joinComponents (processComponents true [] (splitChar '/' d.data) ++ [L]) =
        joinComponents (processComponents true [] (splitChar '/' d.data)) ++ '/' :: L :=
      joinComponents_append_single _ L hCL
    rw [string_ext_iff]
    simp [goClean, data_mk, hsplit, hhead, hr, hproc, hjoin]
    conv_rhs => rw [hdata]
    simp
  · -- relative path
    have hbody_ne : joinComponents (processComponents false [] (splitChar '/' d.data)) ≠ [] := by
      intro h0
      have hcl : goClean d = "." := by simp [goClean, hne, hr, h0]
      exact hdot (hd.symm.trans hcl)
    have hcl : goClean d = ⟨joinComponents (processComponents false [] (splitChar '/' d.data))⟩ := by
      simp [goClean, hne, hr, hbody_ne]
    have hdata : d.data = joinComponents (processComponents false [] (splitChar '/' d.data)) := by
      have := hd.symm.trans hcl
      rw [string_ext_iff] at this
      simpa using this
    have hCL : processComponents false [] (splitChar '/' d.data) ≠ [] := by
      intro h0
      apply hbody_ne
      rw [h0]
      rfl
    have hproc : processComponents false [] (splitChar '/' d.data ++ [L]) =
        processComponents false [] (splitChar '/' d.data) ++ [L] :=
      process_append_normal false [] _ L hL1 hL2 hL3
    have hjoin : joinComponents (processComponents false [] (splitChar '/' d.data) ++ [L]) =
        joinComponents (processComponents false [] (splitChar '/' d.data)) ++ '/' :: L :=
      joinComponents_append_single _ L hCL
    rw [string_ext_iff]
    simp [goClean, data_mk, hsplit, hhead, hr, hproc, hjoin]
    conv_rhs => rw [hdata]

theorem goBase_append (d f : String) (hf : f ≠ "") (hfs : ∀ c ∈ f.data, c ≠ '/') :
    goBase ⟨d.data ++ '/' :: f.data⟩ = f := by
  have hfd : f.data ≠ [] := by
    intro h0
    exact hf (by rw [string_ext_iff, h0])
  have happ_ne : d.data ++ '/' :: f.data ≠ [] := by simp
  have hrev : (d.data ++ '/' :: f.data).reverse = f.data.reverse ++ '/' :: d.data.reverse := by
    simp
  have hfr : ∀ c ∈ f.data.reverse, c ≠ '/' := fun c hc => hfs c (by simpa using hc)
  obtain ⟨c0, rest, hc0⟩ : ∃ c0 rest, f.data.reverse = c0 :: rest := by
    cases hfr2 : f.data.reverse with
    | nil => exact absurd (List.reverse_eq_nil_iff.mp hfr2) hfd
    | cons a b => exact ⟨a, b, rfl⟩
  have hc0ne : (c0 == '/') = false := by
    have : c0 ∈ f.data.reverse := by rw [hc0]; simp
    simpa using hfr c0 this
  have hdrop : (f.data.reverse ++ '/' :: d.data.reverse).dropWhile (fun c => c == '/') =
      f.data.reverse ++ '/' :: d.data.reverse := by
    rw [hc0, List.cons_append, List.dropWhile_cons_of_neg (by simp [hc0ne])]
  have htake : (f.data.reverse ++ '/' :: d.data.reverse).takeWhile (fun c => c != '/') =
      f.data.reverse := by
    rw [List.takeWhile_append_of_pos (by intro a ha; simpa using hfr a ha)]
    rw [List.takeWhile_cons_of_neg (by simp)]
    simp
  simp only [goBase, data_mk, happ_ne, if_neg, hrev, hdrop, htake]
  simp [hfd, string_eta]

theorem goDir_append (d f : String) (hdne : d.data ≠ [])
    (hfs : ∀ c ∈ f.data, c ≠ '/') :
    goDir ⟨d.data ++ '/' :: f.data⟩ = goClean d := by
  have hrev : (d.data ++ '/' :: f.data).reverse = f.data.reverse ++ '/' :: d.data.reverse := by
    simp
  have hfr : ∀ c ∈ f.data.reverse, (c != '/') = true := by
    intro c hc
    simpa using hfs c (by simpa using hc)
  have hdrop : (f.data.reverse ++ '/' :: d.data.reverse).dropWhile (fun c => c != '/') =
      '/' :: d.data.reverse := by
    rw [List.dropWhile_append]
    rw [dropWhile_all_true hfr]
    rw [List.dropWhile_cons_of_neg (by simp)]
    simp
  have hseg : dropLastSegment (d.data ++ '/' :: f.data) = d.data ++ ['/'] := by
    simp only [dropLastSegment, data_mk, hrev, hdrop]
    simp
  rw [goDir, data_mk, hseg, clean_trailing_slash d.data hdne, string_eta]

theorem goBase_no_sep (p : String) (hne : p ≠ "") (hs : ∀ c ∈ p.data, c ≠ '/') :
    goBase p = p := by
  have hpd : p.data ≠ [] := by
    intro h0
    exact hne (by rw [string_ext_iff, h0])
  obtain ⟨c0, rest, hc0⟩ : ∃ c0 rest, p.data.reverse = c0 :: rest := by
    cases hr : p.data.reverse with
    | nil => exact absurd (List.reverse_eq_nil_iff.mp hr) hpd
    | cons a b => exact ⟨a, b, rfl⟩
  have hrr : ∀ c ∈ p.data.reverse, c ≠ '/' := fun c hc => hs c (by simpa using hc)
  have hc0ne : (c0 == '/') = false := by
    have : c0 ∈ p.data.reverse := by rw [hc0]; simp
    simpa using hrr c0 this
  have hdrop : p.data.reverse.dropWhile (fun c => c == '/') = p.data.reverse := by
    rw [hc0, List.dropWhile_cons_of_neg (by simp [hc0ne])]
  have htake : p.data.reverse.takeWhile (fun c => c != '/') = p.data.reverse := by
    apply takeWhile_all_true
    intro c hc
    simpa using hrr c hc
  simp only [goBase, hpd, if_neg, hdrop, htake]
  simp [hpd, string_eta]

theorem goDir_no_sep (p : String) (hs : ∀ c ∈ p.data, c ≠ '/') :
    goDir p = "." := by
  have hrr : ∀ c ∈ p.data.reverse, (c != '/') = true := by
    intro c hc
    simpa using hs c (by simpa using hc)
  have hdrop : p.data.reverse.dropWhile (fun c => c != '/') = [] := dropWhile_all_true hrr
  simp [goDir, dropLastSegment, hdrop, goClean]

theorem charToLower_not_upper (c : Char) :
    ¬(65 ≤ (charToLower c).toNat ∧ (charToLower c).toNat ≤ 90) := by
  unfold charToLower
  by_cases h : 65 ≤ c.toNat ∧ c.toNat ≤ 90
  · simp only [h, if_true]
    obtain ⟨h1, h2⟩ := h
    set k := c.toNat with hk
    clear_value k
    interval_cases k <;> simp
  · rw [if_neg h]; exact h


theorem lookup_none_of_ne {β : Type} (l : List (String × β)) (k : String)
    (h : ∀ p ∈ l, k ≠ p.1) : l.lookup k = none := by
  induction l with
  | nil => rfl
  | cons p ps ih =>
    obtain ⟨a, b⟩ := p
    have hne : (k == a) = false := by simpa using h (a, b) (by simp)
    simp only [List.lookup, hne]
    exact ih fun q hq => h q (by simp [hq])

/-! Claim theorems. -/

/-- C9: the content-type resolver is a pure total lookup: every extension
key present in the fixed table resolves to the documented MIME type for
that key, and every extension not in the table, the empty extension
included, resolves to "application/octet-stream". -/
theorem contentType_total_lookup :
    (∀ p ∈ contentTypes, getContentTypeFromExtension p.1 = p.2)
    ∧ getContentTypeFromExtension "" = "application/octet-stream"
    ∧ ∀ e : String, (∀ p ∈ contentTypes, e ≠ p.1) →
        getContentTypeFromExtension e = "application/octet-stream" := by
  refine ⟨by decide, by decide, ?_⟩
  intro e he
  simp only [getContentTypeFromExtension]
  rw [lookup_none_of_ne contentTypes e he]

/-- Witness for C9: a listed key resolves to its MIME type and an
unlisted one to the generic fallback. -/
theorem contentType_total_lookup_witness :
    getContentTypeFromExtension ".png" = "image/png"
    ∧ getContentTypeFromExtension ".xyz" = "application/octet-stream" :=
  ⟨contentType_total_lookup.1 (".png", "image/png") (by decide),
   contentType_total_lookup.2.2 ".xyz" (by decide)⟩

/-- C10 (amended): ValidateUpload lowercases only the filename's
extension and compares it verbatim against the allow-list entries, so an
entry holding an uppercase ASCII letter can never be matched by any
filename; and a policy with a non-empty allow-list none of whose entries
is the empty string rejects every filename without an extension. -/
theorem validate_extension_comparison (u : URLGenerator) (e f : String) (c : Char) :
    (c ∈ e.data → 65 ≤ c.toNat → c.toNat ≤ 90 → goToLower (goExt f) ≠ e)
    ∧ (u.uploadRestrictions.AllowedExtensions ≠ [] →
       "" ∉ u.uploadRestrictions.AllowedExtensions →
       goExt f = "" → ∃ msg, ValidateUpload u f = some msg) := by
  constructor
  · intro hc h1 h2 heq
    rw [← heq] at hc
    simp only [goToLower, data_mk, List.mem_map] at hc
    obtain ⟨c', _, hc'⟩ := hc
    exact charToLower_not_upper c' (by rw [hc']; exact ⟨h1, h2⟩)
  · intro hne hnem hext
    have hlen : u.uploadRestrictions.AllowedExtensions.length > 0 := by
      cases h : u.uploadRestrictions.AllowedExtensions with
      | nil => exact absurd h hne
      | cons a l => simp
    have hlow : goToLower (goExt f) = "" := by
      rw [hext]
      decide
    have hany : u.uploadRestrictions.AllowedExtensions.any
        (fun allowedExt => goToLower (goExt f) = allowedExt) = false := by
      rw [List.any_eq_false]
      intro x hx
      rw [hlow]
      simp only [decide_eq_true_eq]
      intro h0
      exact hnem (h0 ▸ hx)
    refine ⟨"file extension " ++ goToLower (goExt f) ++
      " not allowed. Allowed extensions: [" ++
      joinSpace u.uploadRestrictions.AllowedExtensions ++ "]", ?_⟩
    simp only [ValidateUpload, hlen, if_pos, hany]
    simp [hany]

/-- C10 counterexample: the literal claim fails, since a non-empty
allow-list that holds the empty string accepts the extensionless filename
"abc". -/
theorem validate_extension_comparison_counterexample :
    ValidateUpload ⟨"", none, "", "", "b", 0, ⟨true, [""], 0, 0⟩⟩ "abc" = none
    ∧ ([""] : List String) ≠ [] := ⟨by decide, by decide⟩

/-- C7: for any generator whose allow-list is exactly [".pdf"], upload
validation accepts "a.pdf" and "A.PDF" (case-insensitively), rejects
"a.jpg" with a validation error that the default upload operation returns
without issuing any signing request, and any generator with an empty
allow-list accepts every filename. -/
theorem restriction_gating (u : URLGenerator)
    (hext : u.uploadRestrictions.AllowedExtensions = [".pdf"]) :
    ValidateUpload u "a.pdf" = none
    ∧ ValidateUpload u "A.PDF" = none
    ∧ ValidateUpload u "a.jpg" =
        some "file extension .jpg not allowed. Allowed extensions: [.pdf]"
    ∧ (∀ sign bytes now,
        GenerateSignedUploadURL u sign bytes now "a.jpg" =
          (.error "file extension .jpg not allowed. Allowed extensions: [.pdf]", []))
    ∧ ∀ v : URLGenerator, v.uploadRestrictions.AllowedExtensions = [] →
        ∀ f, ValidateUpload v f = none := by
  have hjpg : ValidateUpload u "a.jpg" =
      some "file extension .jpg not allowed. Allowed extensions: [.pdf]" := by
    simp only [ValidateUpload, hext]
    decide
  have hres : hasRestrictions u = true := by
    simp [hasRestrictions, hext]
  refine ⟨?_, ?_, hjpg, ?_, ?_⟩
  · simp only [ValidateUpload, hext]
    decide
  · simp only [ValidateUpload, hext]
    decide
  · intro sign bytes now
    simp only [GenerateSignedUploadURL, hres, if_true, hjpg]
  · intro v hv f
    simp [ValidateUpload, hv]

/-- Witness for C7 at a concrete generator. -/
theorem restriction_gating_witness :
    ValidateUpload ⟨"", none, "", "", "b", 0, ⟨true, [".pdf"], 0, 0⟩⟩ "a.pdf" = none
    ∧ ValidateUpload ⟨"", none, "", "", "b", 0, ⟨true, [], 0, 0⟩⟩ "anything" = none :=
  ⟨(restriction_gating ⟨"", none, "", "", "b", 0, ⟨true, [".pdf"], 0, 0⟩⟩ rfl).1,
   (restriction_gating ⟨"", none, "", "", "b", 0, ⟨true, [".pdf"], 0, 0⟩⟩ rfl).2.2.2.2
     ⟨"", none, "", "", "b", 0, ⟨true, [], 0, 0⟩⟩ rfl "anything"⟩


/-- Witness for C10: the uppercase entry ".PDF" is unmatchable and a
[".pdf"] policy rejects the extensionless name "noext". -/
theorem validate_extension_comparison_witness :
    goToLower (goExt "a.pdf") ≠ ".PDF"
    ∧ ∃ msg, ValidateUpload ⟨"", none, "", "", "b", 0, ⟨true, [".pdf"], 0, 0⟩⟩ "noext" = some msg :=
  ⟨(validate_extension_comparison ⟨"", none, "", "", "b", 0, ⟨true, [".pdf"], 0, 0⟩⟩
      ".PDF" "a.pdf" 'P').1 (by decide) (by decide) (by decide),
   (validate_extension_comparison ⟨"", none, "", "", "b", 0, ⟨true, [".pdf"], 0, 0⟩⟩
      ".PDF" "noext" 'P').2 (by decide) (by decide) (by decide)⟩

theorem extList_ne_nil (s : String) :
    (splitChar ',' s.data).map normalizeExtEntry ≠ [] := by
  intro h
  rw [List.map_eq_nil_iff] at h
  exact splitChar_ne_nil ',' s.data h

/-- C2 counterexample: the claim says any set variable, even at its
default value, yields a concrete policy; but with
GCS_ALLOW_MULTIPLE_UPLOADS set to its default "true" (and the other two
unset) the builder returns the sentinel absence. -/
theorem env_restrictions_counterexample :
    NewUploadRestrictionsFromEnv
      (fun k => if k = "GCS_ALLOW_MULTIPLE_UPLOADS" then "true" else "") = none := by
  decide

/-- C2 (amended): NewUploadRestrictionsFromEnv returns the sentinel
absence exactly when every variable is unset or carries its default
meaning: the allow-multiple variable is unset or lowercases to "true",
the extension-list variable is unset, and the size variable does not
parse to a positive integer.  It returns a concrete policy exactly when
some variable is set to an effective non-default. -/
theorem env_restrictions_none_iff (env : String → String) :
    NewUploadRestrictionsFromEnv env = none ↔
      (env "GCS_ALLOW_MULTIPLE_UPLOADS" = "" ∨
        goToLower (env "GCS_ALLOW_MULTIPLE_UPLOADS") = "true")
      ∧ env "GCS_ALLOWED_FILE_EXTENSIONS" = ""
      ∧ ∀ n : Int, parseInt64 (env "GCS_MAX_FILE_SIZE_MB") = some n → n ≤ 0 := by
  by_cases hA : env "GCS_ALLOW_MULTIPLE_UPLOADS" = ""
  all_goals by_cases hE : env "GCS_ALLOWED_FILE_EXTENSIONS" = ""
  all_goals by_cases hMe : env "GCS_MAX_FILE_SIZE_MB" = ""
  all_goals try
    simp only [NewUploadRestrictionsFromEnv, hA, hE, hMe, extList_ne_nil]
  all_goals try
    have hM0 : parseInt64 (env "GCS_MAX_FILE_SIZE_MB") = none := by rw [hMe]; rfl
  all_goals rcases hM : parseInt64 (env "GCS_MAX_FILE_SIZE_MB") with _ | n
  all_goals try by_cases hn : 0 < n
  all_goals simp_all [NewUploadRestrictionsFromEnv, hA, hE, hMe, hM, extList_ne_nil,
    splitChar_ne_nil]
  all_goals try rw [if_neg (show ¬(0:Int) < n by omega)]
  all_goals try simp_all


/-- Witness for C2: an all-unset environment yields the sentinel
absence. -/
theorem env_restrictions_none_iff_witness :
    NewUploadRestrictionsFromEnv (fun _ => "") = none :=
  (env_restrictions_none_iff (fun _ => "")).mpr
    ⟨Or.inl rfl, rfl, fun n h => by
      rw [show parseInt64 "" = none by decide] at h
      cases h⟩

theorem withConfig_ok_bucketName (env : String → String) (fs : String → Option String)
    (parse : String → Option ServiceAccount) (config : Config)
    (hb : config.BucketName ≠ "") (g : URLGenerator)
    (hg : NewURLGeneratorWithConfig env fs parse config = .ok g) :
    g.bucketName = config.BucketName := by
  unfold NewURLGeneratorWithConfig at hg
  simp only [if_pos hb, if_neg hb] at hg
  repeat' split at hg
  all_goals first
    | (cases hg; rfl)
    | exact Except.noConfusion hg

theorem withConfig_ok_expiry (env : String → String) (fs : String → Option String)
    (parse : String → Option ServiceAccount) (config : Config) (g : URLGenerator)
    (hg : NewURLGeneratorWithConfig env fs parse config = .ok g) :
    g.defaultExpiry =
      if config.DefaultExpiryMinutes > 0 then config.DefaultExpiryMinutes * minuteNs
      else expiryFromEnvVal (env "GCS_DEFAULT_EXPIRY_MINUTES") := by
  simp only [NewURLGeneratorWithConfig] at hg
  repeat' split at hg
  all_goals first
    | exact Except.noConfusion hg
    | (cases hg; first | rfl | rw [if_neg (by omega)] | rw [if_pos (by omega)])

theorem withRestrictions_ok_expiry (env : String → String) (fs : String → Option String)
    (parse : String → Option ServiceAccount) (r : Option UploadRestrictions)
    (g : URLGenerator)
    (hg : NewURLGeneratorWithRestrictions env fs parse r = .ok g) :
    g.defaultExpiry = expiryFromEnvVal (env "GCS_DEFAULT_EXPIRY_MINUTES") := by
  simp only [NewURLGeneratorWithRestrictions] at hg
  repeat' split at hg
  all_goals first
    | exact Except.noConfusion hg
    | (cases hg; rfl)

/-- C5: an explicit bucket (config field, or the argument of the
bucket-taking constructor) wins over any conflicting GCS_BUCKET_NAME
environment value; with neither an explicit bucket nor the environment
variable, construction fails with the configuration error and no
generator is returned. -/
theorem bucket_resolution (env : String → String) (fs : String → Option String)
    (parse : String → Option ServiceAccount) (config : Config) (b : String) :
    (config.BucketName ≠ "" →
      ∀ g, NewURLGeneratorWithConfig env fs parse config = .ok g →
        g.bucketName = config.BucketName)
    ∧ (b ≠ "" →
      ∀ g, NewURLGeneratorWithBucket env fs parse b = .ok g → g.bucketName = b)
    ∧ (config.BucketName = "" → env "GCS_BUCKET_NAME" = "" →
      NewURLGeneratorWithConfig env fs parse config =
        .error "bucket name is required. Provide via Config.BucketName or GCS_BUCKET_NAME environment variable") := by
  refine ⟨?_, ?_, ?_⟩
  · intro hb g hg
    exact withConfig_ok_bucketName env fs parse config hb g hg
  · intro hb g hg
    rw [NewURLGeneratorWithBucket, if_neg hb] at hg
    exact withConfig_ok_bucketName env fs parse ⟨"", b, "", 0, none⟩ hb g hg
  · intro h1 h2
    simp [NewURLGeneratorWithConfig, h1, h2]

/-- Witness for C5: an explicit config bucket beats a conflicting
environment bucket; both sources empty fail. -/
theorem bucket_resolution_witness :
    (⟨"", none, "", "", "explicit", 900000000000,
       ⟨true, [], 0, 0⟩⟩ : URLGenerator).bucketName = "explicit"
    ∧ NewURLGeneratorWithConfig (fun _ => "") (fun _ => none) (fun _ => none)
        ⟨"", "", "", 0, none⟩ =
        .error "bucket name is required. Provide via Config.BucketName or GCS_BUCKET_NAME environment variable" :=
  ⟨(bucket_resolution (fun k => if k = "GCS_BUCKET_NAME" then "envbucket" else "")
      (fun _ => none) (fun _ => none) ⟨"", "explicit", "", 0, none⟩ "x").1
      (by decide)
      ⟨"", none, "", "", "explicit", 900000000000, ⟨true, [], 0, 0⟩⟩ rfl,
   (bucket_resolution (fun _ => "") (fun _ => none) (fun _ => none)
      ⟨"", "", "", 0, none⟩ "x").2.2 rfl rfl⟩

/-- C6: with no expiry source, a constructed generator's defaultExpiry is
exactly 15 minutes; environment value "30" gives 30 minutes; "-5" and
"abc" are silently ignored and give 15 minutes; a positive config
DefaultExpiryMinutes beats the environment variable.  The same
environment behavior holds for the restrictions constructor. -/
theorem expiry_resolution (env : String → String) (fs : String → Option String)
    (parse : String → Option ServiceAccount) (config : Config) (m : Int)
    (r : Option UploadRestrictions) :
    (config.DefaultExpiryMinutes ≤ 0 → env "GCS_DEFAULT_EXPIRY_MINUTES" = "" →
      ∀ g, NewURLGeneratorWithConfig env fs parse config = .ok g →
        g.defaultExpiry = 15 * minuteNs)
    ∧ (config.DefaultExpiryMinutes ≤ 0 → env "GCS_DEFAULT_EXPIRY_MINUTES" = "30" →
      ∀ g, NewURLGeneratorWithConfig env fs parse config = .ok g →
        g.defaultExpiry = 30 * minuteNs)
    ∧ (config.DefaultExpiryMinutes ≤ 0 → env "GCS_DEFAULT_EXPIRY_MINUTES" = "-5" →
      ∀ g, NewURLGeneratorWithConfig env fs parse config = .ok g →
        g.defaultExpiry = 15 * minuteNs)
    ∧ (config.DefaultExpiryMinutes ≤ 0 → env "GCS_DEFAULT_EXPIRY_MINUTES" = "abc" →
      ∀ g, NewURLGeneratorWithConfig env fs parse config = .ok g →
        g.defaultExpiry = 15 * minuteNs)
    ∧ (config.DefaultExpiryMinutes = m → 0 < m →
      ∀ g, NewURLGeneratorWithConfig env fs parse config = .ok g →
        g.defaultExpiry = m * minuteNs)
    ∧ (env "GCS_DEFAULT_EXPIRY_MINUTES" = "" →
      ∀ g, NewURLGeneratorWithRestrictions env fs parse r = .ok g →
        g.defaultExpiry = 15 * minuteNs)
    ∧ (env "GCS_DEFAULT_EXPIRY_MINUTES" = "30" →
      ∀ g, NewURLGeneratorWithRestrictions env fs parse r = .ok g →
        g.defaultExpiry = 30 * minuteNs)
    ∧ (env "GCS_DEFAULT_EXPIRY_MINUTES" = "-5" →
      ∀ g, NewURLGeneratorWithRestrictions env fs parse r = .ok g →
        g.defaultExpiry = 15 * minuteNs)
    ∧ (env "GCS_DEFAULT_EXPIRY_MINUTES" = "abc" →
      ∀ g, NewURLGeneratorWithRestrictions env fs parse r = .ok g →
        g.defaultExpiry = 15 * minuteNs) := by
  refine ⟨?_, ?_, ?_, ?_, ?_, ?_, ?_, ?_, ?_⟩
  · intro hc he g hg
    rw [withConfig_ok_expiry env fs parse config g hg, if_neg (by omega), he]
    decide
  · intro hc he g hg
    rw [withConfig_ok_expiry env fs parse config g hg, if_neg (by omega), he]
    decide
  · intro hc he g hg
    rw [withConfig_ok_expiry env fs parse config g hg, if_neg (by omega), he]
    decide
  · intro hc he g hg
    rw [withConfig_ok_expiry env fs parse config g hg, if_neg (by omega), he]
    decide
  · intro hcm hm g hg
    rw [withConfig_ok_expiry env fs parse config g hg, hcm, if_pos (by omega)]
  · intro he g hg
    rw [withRestrictions_ok_expiry env fs parse r g hg, he]
    decide
  · intro he g hg
    rw [withRestrictions_ok_expiry env fs parse r g hg, he]
    decide
  · intro he g hg
    rw [withRestrictions_ok_expiry env fs parse r g hg, he]
    decide
  · intro he g hg
    rw [withRestrictions_ok_expiry env fs parse r g hg, he]
    decide

/-- Witness for C6: a concrete environment with "30" resolves to 30
minutes, and one with "abc" falls back to 15 minutes. -/
theorem expiry_resolution_witness :
    (⟨"", none, "", "", "b", 1800000000000,
       ⟨true, [], 0, 0⟩⟩ : URLGenerator).defaultExpiry = 30 * minuteNs
    ∧ (⟨"", none, "", "", "b", 900000000000,
       ⟨true, [], 0, 0⟩⟩ : URLGenerator).defaultExpiry = 15 * minuteNs :=
  ⟨(expiry_resolution
      (fun k => if k = "GCS_BUCKET_NAME" then "b"
                else if k = "GCS_DEFAULT_EXPIRY_MINUTES" then "30" else "")
      (fun _ => none) (fun _ => none) ⟨"", "b", "", 0, none⟩ 0 none).2.1
      (by decide) (by decide)
      ⟨"", none, "", "", "b", 1800000000000, ⟨true, [], 0, 0⟩⟩ rfl,
   (expiry_resolution
      (fun k => if k = "GCS_BUCKET_NAME" then "b"
                else if k = "GCS_DEFAULT_EXPIRY_MINUTES" then "abc" else "")
      (fun _ => none) (fun _ => none) ⟨"", "b", "", 0, none⟩ 0 none).2.2.2.2.2.2.2.2
      (by decide) ⟨"", none, "", "", "b", 900000000000, ⟨true, [], 0, 0⟩⟩ rfl⟩


/-- C3 counterexample: the config constructor ignores
GOOGLE_APPLICATION_CREDENTIALS entirely — with it set to an unreadable
path and no config file path, construction succeeds with the signing
identity absent, where the claim demands a fatal read error. -/
theorem credential_chain_counterexample :
    NewURLGeneratorWithConfig
      (fun k => if k = "GCS_BUCKET_NAME" then "b"
                else if k = "GOOGLE_APPLICATION_CREDENTIALS" then "/p" else "")
      (fun _ => none) (fun _ => none) ⟨"", "b", "", 0, none⟩
      = .ok ⟨"", none, "", "", "b", 900000000000, ⟨true, [], 0, 0⟩⟩ := rfl

/-- C3 (amended): credential resolution follows the spec's ordered chain
— JSON blob first with fatal no-fallthrough parse failure, else file read
and parse with fatal failure, else identity absent and construction still
succeeds — with the file path taken constructor-specifically: the
GOOGLE_APPLICATION_CREDENTIALS variable in the environment constructors
and the Config field in the config constructor (the other source is
ignored there). -/
theorem credential_chain (env : String → String) (fs : String → Option String)
    (parse : String → Option ServiceAccount) (config : Config)
    (r : Option UploadRestrictions) :
    ((if config.BucketName ≠ "" then config.BucketName else env "GCS_BUCKET_NAME") ≠ "" →
      credAgrees (NewURLGeneratorWithConfig env fs parse config)
        (specCredentialChain parse fs (env "GCS_SERVICE_ACCOUNT_JSON")
          config.ServiceAccountKeyPath))
    ∧ (env "GCS_BUCKET_NAME" ≠ "" →
      credAgrees (NewURLGeneratorWithRestrictions env fs parse r)
        (specCredentialChain parse fs (env "GCS_SERVICE_ACCOUNT_JSON")
          (env "GOOGLE_APPLICATION_CREDENTIALS"))) := by
  constructor
  · intro hb
    simp only [NewURLGeneratorWithConfig, specCredentialChain, if_neg hb]
    by_cases hj : env "GCS_SERVICE_ACCOUNT_JSON" = ""
    · simp only [hj, ne_eq, not_true_eq_false, if_false, ite_false]
      by_cases hp : config.ServiceAccountKeyPath = ""
      · simp [hp, credAgrees]
      · simp only [hp, ne_eq, not_false_eq_true, if_true, ite_true]
        rcases hfs : fs config.ServiceAccountKeyPath with _ | fileData
        · simp [credAgrees, hfs]
        · rcases hpf : parse fileData with _ | sa <;> simp [credAgrees, hfs, hpf]
    · simp only [hj, ne_eq, not_false_eq_true, if_true, ite_true]
      rcases hpj : parse (env "GCS_SERVICE_ACCOUNT_JSON") with _ | sa <;>
        simp [credAgrees, hpj]
  · intro hb
    simp only [NewURLGeneratorWithRestrictions, specCredentialChain, if_neg hb]
    by_cases hj : env "GCS_SERVICE_ACCOUNT_JSON" = ""
    · simp only [hj, ne_eq, not_true_eq_false, if_false, ite_false]
      by_cases hp : env "GOOGLE_APPLICATION_CREDENTIALS" = ""
      · simp [hp, credAgrees]
      · simp only [hp, ne_eq, not_false_eq_true, if_true, ite_true]
        rcases hfs : fs (env "GOOGLE_APPLICATION_CREDENTIALS") with _ | fileData
        · simp [credAgrees, hfs]
        · rcases hpf : parse fileData with _ | sa <;> simp [credAgrees, hfs, hpf]
    · simp only [hj, ne_eq, not_false_eq_true, if_true, ite_true]
      rcases hpj : parse (env "GCS_SERVICE_ACCOUNT_JSON") with _ | sa <;>
        simp [credAgrees, hpj]

/-- Witness for C3: with no credential source set, the environment
constructor succeeds and agrees with the spec chain's absent identity. -/
theorem credential_chain_witness :
    credAgrees
      (NewURLGeneratorWithRestrictions (fun k => if k = "GCS_BUCKET_NAME" then "b" else "")
        (fun _ => none) (fun _ => none) none)
      (specCredentialChain (fun _ => none) (fun _ => none) "" "") :=
  (credential_chain (fun k => if k = "GCS_BUCKET_NAME" then "b" else "")
    (fun _ => none) (fun _ => none) ⟨"", "", "", 0, none⟩ none).2 (by decide)

/-- C1 counterexample: with an active [".pdf"] policy, the expiry
override variant signs "a.jpg" untouched — no validation, no unique-key
derivation — while the default upload operation rejects it before any
signing request. -/
theorem upload_variants_counterexample :
    (GenerateSignedUploadURLWithExpiry
        ⟨"", some ⟨"e", "k"⟩, "", "", "b", 900000000000, ⟨true, [".pdf"], 0, 0⟩⟩
        (fun _ => .ok "URL") 0 "b" "a.jpg" 900000000000).1
      = .ok ⟨"URL", 900000000000, "a.jpg", "a.jpg"⟩
    ∧ GenerateSignedUploadURL
        ⟨"", some ⟨"e", "k"⟩, "", "", "b", 900000000000, ⟨true, [".pdf"], 0, 0⟩⟩
        (fun _ => .ok "URL") [0, 0, 0, 0] 0 "a.jpg"
      = (.error "file extension .jpg not allowed. Allowed extensions: [.pdf]", []) :=
  ⟨rfl, rfl⟩

/-- C1 (amended): the bucket-override variant behaves identically to the
default upload operation in all other respects — GenerateSignedUploadURL
is the bucket variant at the default bucket, a validation failure aborts
both before any signing request, and every success carries the derived
unique key and the original name — while the expiry-override variant is
the verbatim-name path: it applies no restriction validation and derives
no key (storageKey = originalName = path). -/
theorem upload_variants (u : URLGenerator) (sign : SignRequest → Except String String)
    (bytes : List Nat) (now e : Int) (b path : String) :
    GenerateSignedUploadURL u sign bytes now path
      = GenerateSignedUploadURLWithBucket u sign bytes now u.bucketName path
    ∧ (∀ msg, hasRestrictions u = true → ValidateUpload u path = some msg →
        GenerateSignedUploadURLWithBucket u sign bytes now b path = (.error msg, [])
        ∧ GenerateSignedUploadURL u sign bytes now path = (.error msg, []))
    ∧ (∀ up t, GenerateSignedUploadURLWithBucket u sign bytes now b path = (.ok up, t) →
        up.GeneratedKey = generateUniqueObjectName bytes path ∧ up.OriginalName = path)
    ∧ (∀ up t, GenerateSignedUploadURLWithExpiry u sign now b path e = (.ok up, t) →
        up.GeneratedKey = path ∧ up.OriginalName = path) := by
  refine ⟨rfl, ?_, ?_, ?_⟩
  · intro msg hres hval
    constructor
    · simp only [GenerateSignedUploadURLWithBucket, hres, if_true, hval]
    · simp only [GenerateSignedUploadURL, hres, if_true, hval]
  · intro up t h
    simp only [GenerateSignedUploadURLWithBucket] at h
    repeat' split at h
    all_goals injection h with hA hB
    all_goals first
      | exact Except.noConfusion hA
      | (injection hA with h3; subst h3; exact ⟨rfl, rfl⟩)
  · intro up t h
    simp only [GenerateSignedUploadURLWithExpiry] at h
    repeat' split at h
    all_goals injection h with hA hB
    all_goals first
      | exact Except.noConfusion hA
      | (injection hA with h3; subst h3; exact ⟨rfl, rfl⟩)

/-- Witness for C1: a rejected file aborts the bucket variant before
signing, and a successful run's generated key is the derived unique
key. -/
theorem upload_variants_witness :
    GenerateSignedUploadURLWithBucket
      ⟨"", some ⟨"e", "k"⟩, "", "", "b", 900000000000, ⟨true, [".pdf"], 0, 0⟩⟩
      (fun _ => .ok "URL") [0, 0, 0, 0] 0 "b2" "a.jpg"
      = (.error "file extension .jpg not allowed. Allowed extensions: [.pdf]", [])
    ∧ (⟨"URL", 900000000000, "00000000_a.pdf", "a.pdf"⟩ : DocumentUpload).GeneratedKey
        = generateUniqueObjectName [0, 0, 0, 0] "a.pdf" :=
  ⟨((upload_variants ⟨"", some ⟨"e", "k"⟩, "", "", "b", 900000000000, ⟨true, [".pdf"], 0, 0⟩⟩
      (fun _ => .ok "URL") [0, 0, 0, 0] 0 0 "b2" "a.jpg").2.1
      "file extension .jpg not allowed. Allowed extensions: [.pdf]" rfl rfl).1,
   ((upload_variants ⟨"", some ⟨"e", "k"⟩, "", "", "b", 900000000000, ⟨true, [".pdf"], 0, 0⟩⟩
      (fun _ => .ok "URL") [0, 0, 0, 0] 0 0 "b2" "a.pdf").2.2.1
      ⟨"URL", 900000000000, "00000000_a.pdf", "a.pdf"⟩
      [⟨"b2", "00000000_a.pdf", "PUT", 900000000000, "application/pdf", [], "e", "k"⟩]
      rfl).1⟩


/-- C8 counterexample: the empty path contains no separator, yet its
derived key is "{hex}_." rather than "{hex}_" ++ "": the empty path's
base is ".", so the leaf is not kept unchanged. -/
theorem leaf_only_counterexample :
    generateUniqueObjectName [0, 0, 0, 0] "" = "00000000_."
    ∧ generateShortUUID [0, 0, 0, 0] ++ "_" ++ "" = "00000000_"
    ∧ ("00000000_." : String) ≠ "00000000_" :=
  ⟨by decide, by decide, by decide⟩

/-- C8 (amended): for every nonempty input path with no separator, the
derived key is exactly the 8-character lowercase-hexadecimal identifier
(rendered from the 4 random bytes), an underscore, then the path
unchanged, with no separator introduced into the result. -/
theorem leaf_only_derivation (bytes : List Nat) (p : String)
    (hne : p ≠ "") (hsep : ∀ c ∈ p.data, c ≠ '/') (hlen : bytes.length = 4) :
    generateUniqueObjectName bytes p = generateShortUUID bytes ++ "_" ++ p
    ∧ (generateShortUUID bytes).data.length = 8
    ∧ (∀ c ∈ (generateShortUUID bytes).data,
        ('0' ≤ c ∧ c ≤ '9') ∨ ('a' ≤ c ∧ c ≤ 'f'))
    ∧ ∀ c ∈ (generateUniqueObjectName bytes p).data, c ≠ '/' := by
  have hbase : goBase p = p := goBase_no_sep p hne hsep
  have hdir : goDir p = "." := goDir_no_sep p hsep
  have hmain : generateUniqueObjectName bytes p = generateShortUUID bytes ++ "_" ++ p := by
    simp only [generateUniqueObjectName, hbase, hdir, if_pos]
    rw [string_ext_iff]
    simp only [data_append, List.append_assoc]
    rw [stem_append_ext p]
  refine ⟨hmain, by rw [uuid_length, hlen], uuid_chars bytes, ?_⟩
  intro c hc
  rw [hmain] at hc
  simp only [data_append, List.mem_append] at hc
  rcases hc with (hc | hc) | hc
  · exact hex_ne_slash c (uuid_chars bytes c hc)
  · simp only [List.mem_singleton] at hc
    subst hc
    decide
  · exact hsep c hc

/-- Witness for C8 at the path "file.pdf" with zero bytes. -/
theorem leaf_only_derivation_witness :
    generateUniqueObjectName [0, 0, 0, 0] "file.pdf"
      = generateShortUUID [0, 0, 0, 0] ++ "_" ++ "file.pdf"
    ∧ (generateShortUUID [0, 0, 0, 0]).data.length = 8 :=
  ⟨(leaf_only_derivation [0, 0, 0, 0] "file.pdf" (by decide) (by decide) (by decide)).1,
   (leaf_only_derivation [0, 0, 0, 0] "file.pdf" (by decide) (by decide) (by decide)).2.1⟩

/-- C4 counterexample: "./b.pdf" contains a separator, its prefix up to
the final separator is ".", yet the derived key has no directory prefix
at all: the claim's universal directory preservation fails on paths with
a "." directory. -/
theorem directory_preservation_counterexample :
    upToFinalSep "./b.pdf" = "."
    ∧ generateUniqueObjectName [0, 0, 0, 0] "./b.pdf" = "00000000_b.pdf"
    ∧ upToFinalSep (generateUniqueObjectName [0, 0, 0, 0] "./b.pdf") ≠ "." :=
  ⟨by decide, by decide, by decide⟩

/-- C4 (amended): for every input path d ++ "/" ++ f whose directory
part d is a cleaned path (filepath.Clean d = d) other than "." and "/"
and whose leaf f is nonempty and separator-free, the derived key is
d ++ "/" ++ newLeaf — the same separator convention as the input — and
the key's prefix up to the final separator is exactly d. -/
theorem directory_preservation (bytes : List Nat) (d f : String)
    (hd : goClean d = d) (hdot : d ≠ ".") (hroot : d ≠ "/")
    (hf : f ≠ "") (hfsep : ∀ c ∈ f.data, c ≠ '/') :
    generateUniqueObjectName bytes (d ++ "/" ++ f)
      = d ++ "/" ++ (generateShortUUID bytes ++ "_" ++ goTrimSuffix f (goExt f) ++ goExt f)
    ∧ upToFinalSep (generateUniqueObjectName bytes (d ++ "/" ++ f)) = d := by
  have hdne : d.data ≠ [] := clean_data_ne_nil d hd hdot
  have hstr : (d ++ "/" ++ f) = (⟨d.data ++ '/' :: f.data⟩ : String) := by
    rw [string_ext_iff]
    simp [data_append]
  have hbase : goBase (d ++ "/" ++ f) = f := by
    rw [hstr]
    exact goBase_append d f hf hfsep
  have hdirp : goDir (d ++ "/" ++ f) = d := by
    rw [hstr, goDir_append d f hdne hfsep, hd]
  set leaf := generateShortUUID bytes ++ "_" ++ goTrimSuffix f (goExt f) ++ goExt f
    with hleaf
  have hld : leaf.data = (generateShortUUID bytes).data ++ '_' :: f.data := by
    rw [hleaf]
    simp only [data_append, List.append_assoc]
    rw [stem_append_ext f]
    rfl
  have hleafsep : ∀ c ∈ leaf.data, c ≠ '/' := by
    intro c hc
    rw [hld] at hc
    rcases List.mem_append.mp hc with h1 | h2
    · exact hex_ne_slash c (uuid_chars bytes c h1)
    · rcases List.mem_cons.mp h2 with rfl | h3
      · decide
      · exact hfsep c h3
  have hmem : '_' ∈ leaf.data := by
    rw [hld]
    exact List.mem_append.mpr (Or.inr (by simp))
  have hL1 : leaf.data ≠ [] := by
    intro h
    rw [h] at hmem
    cases hmem
  have hL2 : leaf.data ≠ ['.'] := by
    intro h
    rw [h] at hmem
    simp at hmem
  have hL3 : leaf.data ≠ ['.', '.'] := by
    intro h
    rw [h] at hmem
    simp at hmem
  have hmain : generateUniqueObjectName bytes (d ++ "/" ++ f) = d ++ "/" ++ leaf := by
    simp only [generateUniqueObjectName, hbase, hdirp]
    rw [if_neg hdot]
    rw [goJoin2, if_neg hdne]
    rw [clean_append_normal d leaf.data hd hdot hroot hL1 hL2 hL3 hleafsep]
    rw [string_ext_iff]
    simp [data_append]
  refine ⟨hmain, ?_⟩
  rw [hmain]
  have hdata2 : (d ++ "/" ++ leaf).data = d.data ++ '/' :: leaf.data := by
    simp [data_append]
  have hlr : ∀ c ∈ leaf.data.reverse, (c != '/') = true := by
    intro c hc
    simpa using hleafsep c (by simpa using hc)
  have hdrop : (leaf.data.reverse ++ '/' :: d.data.reverse).dropWhile (fun c => c != '/') =
      '/' :: d.data.reverse := by
    rw [List.dropWhile_append, dropWhile_all_true hlr]
    rw [List.dropWhile_cons_of_neg (by simp)]
    simp
  rw [upToFinalSep, hdata2]
  rw [show (d.data ++ '/' :: leaf.data).reverse = leaf.data.reverse ++ '/' :: d.data.reverse
    by simp]
  rw [hdrop]
  rw [string_ext_iff]
  simp

/-- Witness for C4 at the path "users/123/contract.pdf". -/
theorem directory_preservation_witness :
    generateUniqueObjectName [0xa1, 0xb2, 0xc3, 0xd4] ("users/123" ++ "/" ++ "contract.pdf")
      = "users/123" ++ "/" ++ (generateShortUUID [0xa1, 0xb2, 0xc3, 0xd4] ++ "_" ++
          goTrimSuffix "contract.pdf" (goExt "contract.pdf") ++ goExt "contract.pdf")
    ∧ upToFinalSep (generateUniqueObjectName [0xa1, 0xb2, 0xc3, 0xd4]
        ("users/123" ++ "/" ++ "contract.pdf")) = "users/123" :=
  directory_preservation [0xa1, 0xb2, 0xc3, 0xd4] "users/123" "contract.pdf"
    (by decide) (by decide) (by decide) (by decide) (by decide)

end Gcsurl
